import Mathlib

/-!
Verification of the RichTextEditor toolbar module
(`src/rich_text_editor/index.js` of the grapesjs repository).

The module is a stateful façade over:
  * a mutable list `actions` of toolbar action objects,
  * a DOM element `toolbar` created by `init`,
  * a recorded last-edited element `lastEl`,
  * subscriptions of the `udpatePosition` handler on the event model
    `config.em` (Backbone-style `on`/`off`).

JavaScript values are embedded as `JsVal`, plain objects as ordered
association lists (`JsObj`), object identity as indices into a heap
(`List JsObj`).  The geometry service `canvas.getTargetToElementDim`
is an oracle parameter `dim : Option Nat → Pos`.
-/

namespace GrapesRTE

/-- A JavaScript primitive value, plus references to (external) objects.
`vRef` stands for an object such as the editor model `config.em`. -/
inductive JsVal where
  | vStr (s : String)
  | vNum (n : Int)
  | vBool (b : Bool)
  | vRef (r : Nat)
  | vUndefined
  | vNull
  deriving DecidableEq, Repr

/-- JavaScript truthiness of the embedded values. -/
def truthy : JsVal → Bool
  | .vStr s => !(s == "")
  | .vNum n => !(n == 0)
  | .vBool b => b
  | .vRef _ => true
  | .vUndefined => false
  | .vNull => false

/-- JavaScript string coercion of the embedded values. -/
def jsToString : JsVal → String
  | .vStr s => s
  | .vNum n => toString n
  | .vBool true => "true"
  | .vBool false => "false"
  | .vRef _ => "[object Object]"
  | .vUndefined => "undefined"
  | .vNull => "null"

/-- The JavaScript `+` operator restricted to the value shapes the module
uses: numeric addition on numbers, string concatenation (after string
coercion) otherwise. -/
def jsAdd (a b : JsVal) : JsVal :=
  match a, b with
  | .vNum x, .vNum y => .vNum (x + y)
  | _, _ => .vStr (jsToString a ++ jsToString b)

/-- A JavaScript object: ordered association list of property names. -/
abbrev JsObj := List (String × JsVal)

/-- The JavaScript `in` operator: is the property name present. -/
def hasKey (o : JsObj) (k : String) : Bool :=
  o.any (fun p => p.1 == k)

/-- Property read `o[k]`: the first binding of `k`, `undefined` if absent. -/
def jsGetD (o : JsObj) (k : String) : JsVal :=
  match o.find? (fun p => p.1 == k) with
  | some p => p.2
  | none => .vUndefined

/-- Property write `o[k] = v`: replace the first binding of `k` in place
(JavaScript keeps insertion order; object keys are unique), append the
binding if `k` is absent. -/
def jsSet (o : JsObj) (k : String) (v : JsVal) : JsObj :=
  match o with
  | [] => [(k, v)]
  | p :: t => if p.1 == k then (k, v) :: t else p :: jsSet t k v

@[simp] theorem jsGetD_set_self (o : JsObj) (k : String) (v : JsVal) :
    jsGetD (jsSet o k v) k = v := by
  induction o with
  | nil => simp [jsSet, jsGetD]
  | cons p t ih =>
    by_cases hp : p.1 = k
    · simp [jsSet, jsGetD, hp]
    · simp only [jsSet, jsGetD, List.find?] at *
      rw [show (p.1 == k) = false by simpa using hp]
      simpa [jsGetD, hp] using ih

@[simp] theorem jsGetD_set_ne (o : JsObj) (k k2 : String) (v : JsVal)
    (h : k2 ≠ k) : jsGetD (jsSet o k v) k2 = jsGetD o k2 := by
  induction o with
  | nil => simp [jsSet, jsGetD, Ne.symm h]
  | cons p t ih =>
    by_cases hp : p.1 = k
    · have hp2 : ¬(k = k2) := fun hc => h (hc ▸ rfl)
      simp only [jsSet]
      rw [show (p.1 == k) = true by simpa using hp]
      simp only [jsGetD, List.find?]
      rw [show (k == k2) = false by simpa using hp2,
        show (p.1 == k2) = false by simpa [hp] using hp2]
    · simp only [jsSet]
      rw [show (p.1 == k) = false by simpa using hp]
      by_cases hk2 : p.1 = k2
      · simp [jsGetD, hk2]
      · simp only [jsGetD, List.find?]
        rw [show (p.1 == k2) = false by simpa using hk2]
        exact ih

@[simp] theorem hasKey_set (o : JsObj) (k k2 : String) (v : JsVal) :
    hasKey (jsSet o k v) k2 = (hasKey o k2 || (k == k2)) := by
  induction o with
  | nil => simp [jsSet, hasKey]
  | cons p t ih =>
    simp only [hasKey, jsSet, List.any_cons] at *
    by_cases hp : p.1 = k
    · subst hp
      rw [if_pos (by simp)]
      cases hb : (p.1 == k2) <;> cases ha : (List.any t fun q => q.1 == k2) <;>
        simp [List.any_cons, hb, ha]
    · rw [if_neg (by simpa using hp)]
      simp [List.any_cons, ih, Bool.or_assoc]

/-! ### The configuration built by `init` -/

/-- The merge loop of `init`:
`for (let name in defaults) if (!(name in config)) config[name] = defaults[name]`
starting from `config = opts`. -/
def mergeDefaults (opts defaults : JsObj) : JsObj :=
  defaults.foldl
    (fun c p => if hasKey c p.1 then c else jsSet c p.1 (jsGetD defaults p.1))
    opts

/-- The configuration after `init(opts)`: merge the defaults for absent
names, then, when `config.pStylePrefix` is truthy, replace
`config.stylePrefix` by `pStylePrefix + stylePrefix`. -/
def initConfig (opts defaults : JsObj) : JsObj :=
  let cfg := mergeDefaults opts defaults
  let ppfx := jsGetD cfg "pStylePrefix"
  if truthy ppfx then jsSet cfg "stylePrefix" (jsAdd ppfx (jsGetD cfg "stylePrefix"))
  else cfg

/-! ### Toolbar element, positions, module state -/

/-- The result object of `canvas.getTargetToElementDim(toolbar, lastEl, ...)`. -/
structure Pos where
  top : Int
  left : Int
  canvasTop : Int
  elementTop : Int
  elementHeight : Int
  deriving DecidableEq, Repr

/-- The toolbar `<div>`: `id` is the DOM identity of the node (which node
it is), the other fields are the mutable attributes the module touches. -/
structure ToolbarEl where
  id : Nat
  className : String
  styleTop : String
  styleLeft : String
  styleDisplay : String
  stylePointerEvents : String
  parent : Option Nat
  deriving DecidableEq, Repr

/-- The mutable state of the module closure: the `config`, a heap of
JavaScript objects (`actions` holds references into it), the recorded
last-edited element, the toolbar element, the bindings of the
`udpatePosition` handler (id `0`) on `config.em`, and whether a custom
RTE is configured (`this.customRte`). -/
structure RTEState where
  config : JsObj
  heap : List JsObj
  actions : List Nat
  lastEl : Option Nat
  toolbar : ToolbarEl
  emSubs : List (String × Nat)
  customRte : Bool
  deriving Repr

/-- Read the object a heap reference denotes. -/
def heapAt (h : List JsObj) (r : Nat) : JsObj := h.getD r []

/-- Write one property of the object a heap reference denotes. -/
def heapSet (h : List JsObj) (r : Nat) (k : String) (v : JsVal) : List JsObj :=
  h.set r (jsSet (heapAt h r) k v)

/-- `init`: build the config, record `actions = config.actions || []`
(`cfgActions` is the list that expression denotes), create a fresh
toolbar `<div>` with DOM identity `tbId` and class
`` `${ppfx}rte-toolbar` ``.  `heap0` holds the pre-existing objects. -/
def init (opts defaults : JsObj) (heap0 : List JsObj) (cfgActions : List Nat)
    (tbId : Nat) : RTEState :=
  let cfg := initConfig opts defaults
  { config := cfg
    heap := heap0
    actions := cfgActions
    lastEl := none
    toolbar :=
      { id := tbId
        className := jsToString (jsGetD cfg "pStylePrefix") ++ "rte-toolbar"
        styleTop := ""
        styleLeft := ""
        styleDisplay := ""
        stylePointerEvents := ""
        parent := none }
    emSubs := []
    customRte := false }

/-! ### The module operations -/

/-- `add(name, opts)`: `opts.name = name; actions.push(opts)`.  The caller
passes the object by reference `r`; the module mutates it and stores the
reference itself. -/
def add (name : String) (r : Nat) (s : RTEState) : RTEState :=
  { s with
    heap := heapSet s.heap r "name" (.vStr name)
    actions := s.actions ++ [r] }

/-- The identifiers bound in the module scope of
`src/rich_text_editor/index.js`: the imports and the closure variables.
No binding named `commands` exists, so evaluating the identifier
`commands` throws a `ReferenceError`. -/
def moduleScope : List String :=
  ["RichTextEditor", "on", "off", "config", "defaults", "toolbar", "actions",
   "lastEl"]

/-- `get(command)`: evaluates `commands.where({command})[0]`.  The
identifier `commands` is resolved against the module scope first; the
lookup branch is unreachable because the binding does not exist. -/
def get (command : String) : Except String JsVal :=
  if moduleScope.contains "commands" then
    Except.ok (.vStr command)
  else
    Except.error "ReferenceError: commands is not defined"

/-- `getAll()`: evaluates `commands`, resolved the same way. -/
def getAll : Except String JsVal :=
  if moduleScope.contains "commands" then
    Except.ok .vUndefined
  else
    Except.error "ReferenceError: commands is not defined"

/-- The two events the space-separated Backbone event string
`'change:canvasOffset canvasScroll'` binds. -/
def rteEvents : List String := ["change:canvasOffset", "canvasScroll"]

/-- `em.off('change:canvasOffset canvasScroll', this.udpatePosition, this)`:
remove every binding of handler `0` on those two events. -/
def emOff (subs : List (String × Nat)) : List (String × Nat) :=
  subs.filter (fun p => !(rteEvents.contains p.1 && p.2 == 0))

/-- `em.on('change:canvasOffset canvasScroll', this.udpatePosition, this)`:
append one binding of handler `0` per event. -/
def emOn (subs : List (String × Nat)) : List (String × Nat) :=
  subs ++ rteEvents.map (fun e => (e, 0))

/-- `enable(view, rte)`: record `lastEl = view.el`, clear the toolbar's
`display` style, and when `config.em` is truthy unsubscribe and then
resubscribe the `udpatePosition` handler. -/
def enable (viewEl : Nat) (s : RTEState) : RTEState :=
  let s1 := { s with
    lastEl := some viewEl
    toolbar := { s.toolbar with styleDisplay := "" } }
  if truthy (jsGetD s.config "em") then { s1 with emSubs := emOn (emOff s1.emSubs) }
  else s1

/-- The `pos.top` used for the style after the `adjustToolbar` fixup:
when the toolbar reaches the top canvas edge it is moved below the
element. -/
def posTop (adjust : Bool) (p : Pos) : Int :=
  if adjust && decide (p.top ≤ p.canvasTop) then p.elementTop + p.elementHeight
  else p.top

/-- `udpatePosition()`: query `canvas.getTargetToElementDim(toolbar, lastEl,
...)` (the oracle `dim`, applied to the recorded last-edited element) and
write the toolbar's `top` and `left` styles in `px`. -/
def udpatePosition (dim : Option Nat → Pos) (s : RTEState) : RTEState :=
  let pos := dim s.lastEl
  let adjust := truthy (jsGetD s.config "adjustToolbar")
  { s with toolbar := { s.toolbar with
      styleTop := toString (posTop adjust pos) ++ "px"
      styleLeft := toString pos.left ++ "px" } }

/-- The external call `disable` makes: `customRte.disable(el, rte)` when a
custom RTE is configured, `rte.disable()` otherwise. -/
inductive RteCall where
  | customDisable (el rte : Nat)
  | rteDisable (rte : Nat)
  deriving DecidableEq, Repr

/-- `disable(view, rte)`: pass through to the external editor and hide the
toolbar (`toolbar.style.display = 'none'`).  `el` is
`view.getChildrenContainer()`. -/
def disable (el rte : Nat) (s : RTEState) : RTEState × RteCall :=
  ({ s with toolbar := { s.toolbar with styleDisplay := "none" } },
   if s.customRte then .customDisable el rte else .rteDisable rte)

/-- `postRender(ev)`: make the toolbar interactive and append it to the
canvas tools element. -/
def postRender (toolsEl : Nat) (s : RTEState) : RTEState :=
  { s with toolbar := { s.toolbar with
      stylePointerEvents := "all"
      parent := some toolsEl } }

/-- `getToolbarEl()`: return the toolbar element. -/
def getToolbarEl (s : RTEState) : ToolbarEl := s.toolbar

/-- Firing a Backbone event on `config.em`: each binding of handler `0` on
that event runs `udpatePosition` once (other modules' handlers do not
touch this module's state). -/
def countSubs (ev : String) (s : RTEState) : Nat :=
  (s.emSubs.filter (fun p => p.1 == ev && p.2 == 0)).length

/-- Run the effect of firing event `ev` on the event model. -/
def fireEvent (ev : String) (dim : Option Nat → Pos) (s : RTEState) : RTEState :=
  (List.range (countSubs ev s)).foldl (fun st _ => udpatePosition dim st) s

/-! ### Call traces -/

/-- One public call into the module after `init` (`opAdd` allocates the
caller's fresh options object on the heap before registering it). -/
inductive Op where
  | opAdd (name : String) (opts : JsObj)
  | opEnable (viewEl : Nat)
  | opDisable (el rte : Nat)
  | opUdpate (dim : Option Nat → Pos)
  | opPostRender (toolsEl : Nat)

/-- Is the operation an `enable` call. -/
def Op.isEnable : Op → Bool
  | .opEnable _ => true
  | _ => false

/-- Apply one call to the module state. -/
def applyOp (s : RTEState) (op : Op) : RTEState :=
  match op with
  | .opAdd name opts => add name s.heap.length { s with heap := s.heap ++ [opts] }
  | .opEnable v => enable v s
  | .opDisable el rte => (disable el rte s).1
  | .opUdpate dim => udpatePosition dim s
  | .opPostRender t => postRender t s

/-- Apply a sequence of calls to the module state. -/
def applyTrace (t : List Op) (s : RTEState) : RTEState := t.foldl applyOp s

/-- The action object registered most recently, read through the
`actions` list. -/
def registeredLast (s : RTEState) : Option JsObj :=
  s.actions.getLast?.map (fun r => heapAt s.heap r)

/-- A concrete module state (em configured, one object on the heap) used
to instantiate theorems with hypotheses. -/
def sampleState : RTEState :=
  { config := [("em", JsVal.vRef 0), ("adjustToolbar", JsVal.vBool true)]
    heap := [[("icon", JsVal.vStr "B")]]
    actions := []
    lastEl := none
    toolbar :=
      { id := 7
        className := "gjs-rte-toolbar"
        styleTop := ""
        styleLeft := ""
        styleDisplay := ""
        stylePointerEvents := ""
        parent := none }
    emSubs := []
    customRte := false }

/-! ### Heap lemmas -/

theorem heapAt_set_self (h : List JsObj) (r : Nat) (o : JsObj)
    (hr : r < h.length) : heapAt (h.set r o) r = o := by
  induction h generalizing r with
  | nil => simp at hr
  | cons a t ih =>
    cases r with
    | zero => rfl
    | succ n => exact ih n (by simpa using hr)

@[simp] theorem heapSet_length (h : List JsObj) (r : Nat) (k : String)
    (v : JsVal) : (heapSet h r k v).length = h.length := by
  simp [heapSet]

theorem heapAt_heapSet_self (h : List JsObj) (r : Nat) (k : String)
    (v : JsVal) (hr : r < h.length) :
    heapAt (heapSet h r k v) r = jsSet (heapAt h r) k v :=
  heapAt_set_self h r _ hr

/-! ### Frame lemmas over single calls and traces -/

theorem applyOp_config (s : RTEState) (op : Op) :
    (applyOp s op).config = s.config := by
  cases op with
  | opEnable v =>
    show (enable v s).config = s.config
    unfold enable
    split <;> rfl
  | opAdd name opts => rfl
  | opDisable el rte => rfl
  | opUdpate dim => rfl
  | opPostRender t => rfl

theorem applyOp_toolbar_id (s : RTEState) (op : Op) :
    (applyOp s op).toolbar.id = s.toolbar.id := by
  cases op with
  | opEnable v =>
    show (enable v s).toolbar.id = s.toolbar.id
    unfold enable
    split <;> rfl
  | opAdd name opts => rfl
  | opDisable el rte => rfl
  | opUdpate dim => rfl
  | opPostRender t => rfl

theorem applyOp_toolbar_className (s : RTEState) (op : Op) :
    (applyOp s op).toolbar.className = s.toolbar.className := by
  cases op with
  | opEnable v =>
    show (enable v s).toolbar.className = s.toolbar.className
    unfold enable
    split <;> rfl
  | opAdd name opts => rfl
  | opDisable el rte => rfl
  | opUdpate dim => rfl
  | opPostRender t => rfl

theorem applyOp_lastEl (s : RTEState) (op : Op) (h : op.isEnable = false) :
    (applyOp s op).lastEl = s.lastEl := by
  cases op with
  | opEnable v => simp [Op.isEnable] at h
  | opAdd name opts => rfl
  | opDisable el rte => rfl
  | opUdpate dim => rfl
  | opPostRender t => rfl

theorem applyOp_emSubs (s : RTEState) (op : Op) (h : op.isEnable = false) :
    (applyOp s op).emSubs = s.emSubs := by
  cases op with
  | opEnable v => simp [Op.isEnable] at h
  | opAdd name opts => rfl
  | opDisable el rte => rfl
  | opUdpate dim => rfl
  | opPostRender t => rfl

theorem applyTrace_cons (op : Op) (t : List Op) (s : RTEState) :
    applyTrace (op :: t) s = applyTrace t (applyOp s op) := rfl

theorem applyTrace_config (t : List Op) (s : RTEState) :
    (applyTrace t s).config = s.config := by
  induction t generalizing s with
  | nil => rfl
  | cons op t ih => rw [applyTrace_cons, ih, applyOp_config]

theorem applyTrace_toolbar_id (t : List Op) (s : RTEState) :
    (applyTrace t s).toolbar.id = s.toolbar.id := by
  induction t generalizing s with
  | nil => rfl
  | cons op t ih => rw [applyTrace_cons, ih, applyOp_toolbar_id]

theorem applyTrace_toolbar_className (t : List Op) (s : RTEState) :
    (applyTrace t s).toolbar.className = s.toolbar.className := by
  induction t generalizing s with
  | nil => rfl
  | cons op t ih => rw [applyTrace_cons, ih, applyOp_toolbar_className]

theorem applyTrace_lastEl (t : List Op) (s : RTEState)
    (h : ∀ op ∈ t, op.isEnable = false) :
    (applyTrace t s).lastEl = s.lastEl := by
  induction t generalizing s with
  | nil => rfl
  | cons op t ih =>
    rw [applyTrace_cons, ih _ (fun o ho => h o (List.mem_cons_of_mem _ ho)),
      applyOp_lastEl _ _ (h op (List.mem_cons_self _ _))]

theorem enable_lastEl (v : Nat) (s : RTEState) :
    (enable v s).lastEl = some v := by
  unfold enable
  split <;> rfl

theorem enable_config (v : Nat) (s : RTEState) :
    (enable v s).config = s.config := by
  unfold enable
  split <;> rfl

/-! ### Lemmas about the defaults-merge loop of `init` -/

theorem mergeStep_preserves (g : String → JsVal) (ds : List (String × JsVal))
    (acc : JsObj) (k : String) (hk : hasKey acc k = true) :
    hasKey (ds.foldl (fun c p => if hasKey c p.1 then c
        else jsSet c p.1 (g p.1)) acc) k = true ∧
    jsGetD (ds.foldl (fun c p => if hasKey c p.1 then c
        else jsSet c p.1 (g p.1)) acc) k = jsGetD acc k := by
  induction ds generalizing acc with
  | nil => exact ⟨hk, rfl⟩
  | cons p ds ih =>
    simp only [List.foldl_cons]
    by_cases hp : hasKey acc p.1 = true
    · rw [if_pos hp]
      exact ih acc hk
    · rw [if_neg hp]
      have hne : k ≠ p.1 := fun hc => hp (hc ▸ hk)
      have hk2 : hasKey (jsSet acc p.1 (g p.1)) k = true := by
        rw [hasKey_set, hk]
        rfl
      obtain ⟨ha, hb⟩ := ih (jsSet acc p.1 (g p.1)) hk2
      exact ⟨ha, by rw [hb, jsGetD_set_ne _ _ _ _ hne]⟩

theorem mergeStep_absent (g : String → JsVal) (ds : List (String × JsVal))
    (acc : JsObj) (k : String) (hk : hasKey acc k = false)
    (hd : ds.any (fun p => p.1 == k) = true) :
    jsGetD (ds.foldl (fun c p => if hasKey c p.1 then c
        else jsSet c p.1 (g p.1)) acc) k = g k := by
  induction ds generalizing acc with
  | nil => simp at hd
  | cons p ds ih =>
    simp only [List.foldl_cons]
    by_cases hpk : p.1 = k
    · subst hpk
      rw [if_neg (by simp [hk])]
      have hkey : hasKey (jsSet acc p.1 (g p.1)) p.1 = true := by
        rw [hasKey_set]
        simp
      rw [(mergeStep_preserves g ds (jsSet acc p.1 (g p.1)) p.1 hkey).2,
        jsGetD_set_self]
    · have hd2 : ds.any (fun p => p.1 == k) = true := by
        simp only [List.any_cons, Bool.or_eq_true, beq_iff_eq] at hd
        rcases hd with h | h
        · exact absurd h hpk
        · exact h
      by_cases hp : hasKey acc p.1 = true
      · rw [if_pos hp]
        exact ih acc hk hd2
      · rw [if_neg hp]
        refine ih (jsSet acc p.1 (g p.1)) ?_ hd2
        rw [hasKey_set, hk]
        simpa using fun hc => hpk hc

theorem mergeDefaults_of_hasKey (opts defaults : JsObj) (k : String)
    (hk : hasKey opts k = true) :
    jsGetD (mergeDefaults opts defaults) k = jsGetD opts k :=
  (mergeStep_preserves (fun x => jsGetD defaults x) defaults opts k hk).2

theorem mergeDefaults_of_absent (opts defaults : JsObj) (k : String)
    (h1 : hasKey opts k = false) (h2 : hasKey defaults k = true) :
    jsGetD (mergeDefaults opts defaults) k = jsGetD defaults k :=
  mergeStep_absent (fun x => jsGetD defaults x) defaults opts k h1 h2

/-! ### Event subscription lemmas -/

theorem contains_of_mem_rteEvents (ev : String) (hev : ev ∈ rteEvents) :
    rteEvents.contains ev = true := by
  rcases (by simpa [rteEvents] using hev :
      ev = "change:canvasOffset" ∨ ev = "canvasScroll") with h | h <;>
    subst h <;> rfl

theorem filter_emOff_nil (subs : List (String × Nat)) (ev : String)
    (hev : ev ∈ rteEvents) :
    (emOff subs).filter (fun p => p.1 == ev && p.2 == 0) = [] := by
  rw [List.filter_eq_nil_iff]
  intro p hp hpred
  unfold emOff at hp
  have hq : (!(rteEvents.contains p.1 && p.2 == 0)) = true :=
    (List.mem_filter.mp hp).2
  simp only [Bool.and_eq_true, beq_iff_eq] at hpred
  obtain ⟨h1, h2⟩ := hpred
  rw [h1] at hq
  simp [h2] at hq
  exact hq hev

theorem countSubs_map_one (ev : String) (hev : ev ∈ rteEvents) :
    ((rteEvents.map (fun e => (e, 0))).filter
      (fun p => p.1 == ev && p.2 == 0)).length = 1 := by
  rcases (by simpa [rteEvents] using hev :
      ev = "change:canvasOffset" ∨ ev = "canvasScroll") with h | h <;>
    subst h <;> rfl

theorem countSubs_enable (s : RTEState) (v : Nat) (ev : String)
    (hem : truthy (jsGetD s.config "em") = true) (hev : ev ∈ rteEvents) :
    countSubs ev (enable v s) = 1 := by
  simp only [countSubs, enable, hem, if_true]
  rw [emOn, List.filter_append, filter_emOff_nil _ _ hev]
  simpa using countSubs_map_one ev hev

theorem countSubs_eq_of_emSubs_eq (ev : String) {s1 s2 : RTEState}
    (h : s1.emSubs = s2.emSubs) : countSubs ev s1 = countSubs ev s2 := by
  simp [countSubs, h]

theorem countSubs_applyTrace_one (t : List Op) (s : RTEState) (ev : String)
    (hev : ev ∈ rteEvents) (hem : truthy (jsGetD s.config "em") = true)
    (h1 : countSubs ev s = 1) :
    countSubs ev (applyTrace t s) = 1 := by
  induction t generalizing s with
  | nil => exact h1
  | cons op t ih =>
    rw [applyTrace_cons]
    refine ih (applyOp s op) ?_ ?_
    · rw [applyOp_config]
      exact hem
    · cases op with
      | opEnable v => exact countSubs_enable s v ev hem hev
      | opAdd name opts =>
        rw [countSubs_eq_of_emSubs_eq ev
          (applyOp_emSubs s (Op.opAdd name opts) rfl)]
        exact h1
      | opDisable el rte =>
        rw [countSubs_eq_of_emSubs_eq ev
          (applyOp_emSubs s (Op.opDisable el rte) rfl)]
        exact h1
      | opUdpate dim =>
        rw [countSubs_eq_of_emSubs_eq ev
          (applyOp_emSubs s (Op.opUdpate dim) rfl)]
        exact h1
      | opPostRender tl =>
        rw [countSubs_eq_of_emSubs_eq ev
          (applyOp_emSubs s (Op.opPostRender tl) rfl)]
        exact h1

theorem fireEvent_of_one (ev : String) (dim : Option Nat → Pos)
    (s : RTEState) (h1 : countSubs ev s = 1) :
    fireEvent ev dim s = udpatePosition dim s := by
  unfold fireEvent
  rw [h1]
  rfl

/-! ### C1, C2, C5, C7, C8 -/

/-- C1: after `add(name, opts)`, `get(name)` does not return the added
action and `getAll()` does not return the actions collection: both bodies
evaluate the identifier `commands`, which is not bound anywhere in the
module, so every call throws `ReferenceError`. -/
theorem get_and_getAll_throw (command : String) :
    get command = Except.error "ReferenceError: commands is not defined" ∧
    getAll = Except.error "ReferenceError: commands is not defined" :=
  ⟨rfl, rfl⟩

/-- C2: `add(name, opts)` grows the actions list by exactly one, keeps
every previously registered action at its original position, puts the new
entry at the end, and that entry's `name` property equals the given name. -/
theorem add_appends_exactly_one (s : RTEState) (name : String) (r : Nat)
    (hr : r < s.heap.length) :
    (add name r s).actions.length = s.actions.length + 1 ∧
    (∀ i, i < s.actions.length → (add name r s).actions[i]? = s.actions[i]?) ∧
    (add name r s).actions[s.actions.length]? = some r ∧
    jsGetD (heapAt (add name r s).heap r) "name" = .vStr name := by
  refine ⟨by simp [add], ?_, ?_, ?_⟩
  · intro i hi
    simp [add, List.getElem?_append, hi]
  · simp [add]
  · show jsGetD (heapAt (heapSet s.heap r "name" (.vStr name)) r) "name" = _
    rw [heapAt_heapSet_self _ _ _ _ hr, jsGetD_set_self]

/-- Witness for C2 at a concrete state. -/
theorem add_appends_exactly_one_witness :
    (add "bold" 0 sampleState).actions.length
        = sampleState.actions.length + 1 ∧
    (∀ i, i < sampleState.actions.length →
      (add "bold" 0 sampleState).actions[i]? = sampleState.actions[i]?) ∧
    (add "bold" 0 sampleState).actions[sampleState.actions.length]? = some 0 ∧
    jsGetD (heapAt (add "bold" 0 sampleState).heap 0) "name" = .vStr "bold" :=
  add_appends_exactly_one sampleState "bold" 0 (by decide)

/-- C5: `udpatePosition` places the toolbar from the geometry the canvas
service reports for the toolbar and the last-edited element: `top` is
`elementTop + elementHeight` (px) when `config.adjustToolbar` is set and
the computed top is at or above the canvas top, the computed top
otherwise; `left` is always the computed left. -/
theorem udpate_position_styles (dim : Option Nat → Pos) (s : RTEState) :
    (udpatePosition dim s).toolbar.styleTop =
      (if truthy (jsGetD s.config "adjustToolbar")
          && decide ((dim s.lastEl).top ≤ (dim s.lastEl).canvasTop)
        then toString ((dim s.lastEl).elementTop + (dim s.lastEl).elementHeight)
        else toString (dim s.lastEl).top) ++ "px" ∧
    (udpatePosition dim s).toolbar.styleLeft
      = toString (dim s.lastEl).left ++ "px" := by
  refine ⟨?_, rfl⟩
  cases hc : (truthy (jsGetD s.config "adjustToolbar")
      && decide ((dim s.lastEl).top ≤ (dim s.lastEl).canvasTop)) <;>
    simp [udpatePosition, posTop, hc]

/-- C7: `disable` only calls the external editor (`customRte.disable(el,
rte)` when a custom RTE is configured, `rte.disable()` otherwise) and sets
the toolbar's `display` style to `'none'`; the actions list, the recorded
last-edited element, the toolbar identity, the heap, the config and the
event subscriptions are unchanged. -/
theorem disable_passthrough_and_frame (el rte : Nat) (s : RTEState) :
    (disable el rte s).2 = (if s.customRte then RteCall.customDisable el rte
        else RteCall.rteDisable rte) ∧
    (disable el rte s).1.toolbar.styleDisplay = "none" ∧
    (disable el rte s).1.actions = s.actions ∧
    (disable el rte s).1.lastEl = s.lastEl ∧
    (disable el rte s).1.toolbar.id = s.toolbar.id ∧
    (disable el rte s).1.heap = s.heap ∧
    (disable el rte s).1.config = s.config ∧
    (disable el rte s).1.emSubs = s.emSubs :=
  ⟨rfl, rfl, rfl, rfl, rfl, rfl, rfl, rfl⟩

/-- C8: `add(name, opts)` mutates the caller's object (its `name`
property becomes the given name) and registers that same object by
reference, so a later mutation of the caller's object is visible through
the registered action. -/
theorem add_aliases_caller_object (s : RTEState) (name k : String)
    (v : JsVal) (r : Nat) (hr : r < s.heap.length) :
    (add name r s).actions.getLast? = some r ∧
    heapAt (add name r s).heap r = jsSet (heapAt s.heap r) "name" (.vStr name) ∧
    registeredLast
        { add name r s with heap := heapSet (add name r s).heap r k v }
      = some (jsSet (jsSet (heapAt s.heap r) "name" (.vStr name)) k v) := by
  have hlast : (add name r s).actions.getLast? = some r := by
    simp [add]
  have hat : heapAt (add name r s).heap r
      = jsSet (heapAt s.heap r) "name" (.vStr name) :=
    heapAt_heapSet_self _ _ _ _ hr
  refine ⟨hlast, hat, ?_⟩
  simp only [registeredLast, hlast, Option.map_some']
  rw [heapAt_heapSet_self _ _ _ _ (by simpa [add] using hr), hat]

/-- Witness for C8 at a concrete state. -/
theorem add_aliases_caller_object_witness :
    (add "link" 0 sampleState).actions.getLast? = some 0 ∧
    heapAt (add "link" 0 sampleState).heap 0
      = jsSet (heapAt sampleState.heap 0) "name" (.vStr "link") ∧
    registeredLast
        { add "link" 0 sampleState with
            heap := heapSet (add "link" 0 sampleState).heap 0 "title"
              (.vStr "Link") }
      = some (jsSet (jsSet (heapAt sampleState.heap 0) "name" (.vStr "link"))
          "title" (.vStr "Link")) :=
  add_aliases_caller_object sampleState "link" "title" (.vStr "Link") 0
    (by decide)

/-- A concrete geometry oracle used to instantiate theorems. -/
def sampleDim : Option Nat → Pos := fun _ =>
  { top := 10, left := 20, canvasTop := 0, elementTop := 3, elementHeight := 4 }

/-! ### C3, C4, C9, C10, C6 -/

/-- C3: after `enable(view, rte)` the recorded last-edited element is
`view.el`, and it stays so through any sequence of non-`enable` calls, so
every subsequent `udpatePosition` computes the toolbar geometry from the
canvas dimensions of that element. -/
theorem enable_records_last_el (s : RTEState) (viewEl : Nat) (t : List Op)
    (ht : ∀ op ∈ t, op.isEnable = false) :
    (applyTrace t (enable viewEl s)).lastEl = some viewEl ∧
    ∀ dim : Option Nat → Pos,
      (udpatePosition dim (applyTrace t (enable viewEl s))).toolbar.styleTop
        = toString (posTop
            (truthy (jsGetD (applyTrace t (enable viewEl s)).config
              "adjustToolbar"))
            (dim (some viewEl))) ++ "px" ∧
      (udpatePosition dim (applyTrace t (enable viewEl s))).toolbar.styleLeft
        = toString (dim (some viewEl)).left ++ "px" := by
  have hlast : (applyTrace t (enable viewEl s)).lastEl = some viewEl := by
    rw [applyTrace_lastEl t _ ht, enable_lastEl]
  refine ⟨hlast, fun dim => ⟨?_, ?_⟩⟩
  · show toString (posTop _ (dim (applyTrace t (enable viewEl s)).lastEl))
        ++ "px" = _
    rw [hlast]
  · show toString (dim (applyTrace t (enable viewEl s)).lastEl).left
        ++ "px" = _
    rw [hlast]

/-- Witness for C3 at a concrete state and trace. -/
theorem enable_records_last_el_witness :
    (applyTrace [Op.opAdd "bold" []] (enable 5 sampleState)).lastEl
      = some 5 ∧
    (udpatePosition sampleDim
        (applyTrace [Op.opAdd "bold" []] (enable 5 sampleState))).toolbar.styleTop
      = toString (posTop
          (truthy (jsGetD (applyTrace [Op.opAdd "bold" []]
            (enable 5 sampleState)).config "adjustToolbar"))
          (sampleDim (some 5))) ++ "px" :=
  ⟨(enable_records_last_el sampleState 5 [Op.opAdd "bold" []]
      (by intro op hop; simp only [List.mem_singleton] at hop; subst hop; rfl)).1,
   ((enable_records_last_el sampleState 5 [Op.opAdd "bold" []]
      (by intro op hop; simp only [List.mem_singleton] at hop; subst hop;
          rfl)).2 sampleDim).1⟩

/-- C4: after `enable` is called with `config.em` present, every later
`change:canvasOffset` or `canvasScroll` event on the event model (after
any further calls into the module) runs `udpatePosition` exactly once,
which rewrites the toolbar's `top` and `left` styles. -/
theorem enable_subscribes_reposition (s : RTEState) (viewEl : Nat)
    (t : List Op) (ev : String) (dim : Option Nat → Pos)
    (hem : truthy (jsGetD s.config "em") = true) (hev : ev ∈ rteEvents) :
    countSubs ev (applyTrace t (enable viewEl s)) = 1 ∧
    fireEvent ev dim (applyTrace t (enable viewEl s))
      = udpatePosition dim (applyTrace t (enable viewEl s)) ∧
    (fireEvent ev dim (applyTrace t (enable viewEl s))).toolbar.styleTop
      = toString (posTop (truthy (jsGetD s.config "adjustToolbar"))
          (dim (applyTrace t (enable viewEl s)).lastEl)) ++ "px" ∧
    (fireEvent ev dim (applyTrace t (enable viewEl s))).toolbar.styleLeft
      = toString (dim (applyTrace t (enable viewEl s)).lastEl).left ++ "px" := by
  have hcfg : (applyTrace t (enable viewEl s)).config = s.config := by
    rw [applyTrace_config, enable_config]
  have hcount : countSubs ev (applyTrace t (enable viewEl s)) = 1 :=
    countSubs_applyTrace_one t (enable viewEl s) ev hev
      (by rw [enable_config]; exact hem)
      (countSubs_enable s viewEl ev hem hev)
  have hfire := fireEvent_of_one ev dim _ hcount
  refine ⟨hcount, hfire, ?_, ?_⟩
  · rw [hfire]
    show toString (posTop
        (truthy (jsGetD (applyTrace t (enable viewEl s)).config
          "adjustToolbar")) _) ++ "px" = _
    rw [hcfg]
  · rw [hfire]
    rfl

/-- Witness for C4 at a concrete state, event and oracle. -/
theorem enable_subscribes_reposition_witness :
    countSubs "canvasScroll" (applyTrace [] (enable 5 sampleState)) = 1 ∧
    fireEvent "canvasScroll" sampleDim (applyTrace [] (enable 5 sampleState))
      = udpatePosition sampleDim (applyTrace [] (enable 5 sampleState)) ∧
    (fireEvent "canvasScroll" sampleDim
        (applyTrace [] (enable 5 sampleState))).toolbar.styleTop
      = toString (posTop (truthy (jsGetD sampleState.config "adjustToolbar"))
          (sampleDim (applyTrace [] (enable 5 sampleState)).lastEl)) ++ "px" ∧
    (fireEvent "canvasScroll" sampleDim
        (applyTrace [] (enable 5 sampleState))).toolbar.styleLeft
      = toString (sampleDim
          (applyTrace [] (enable 5 sampleState)).lastEl).left ++ "px" :=
  enable_subscribes_reposition sampleState 5 [] "canvasScroll" sampleDim
    (by decide) (by simp [rteEvents])

/-- C9: however many times `enable` is called in succession, the
`udpatePosition` handler ends up registered exactly once per event on the
event model, because each `enable` unsubscribes it before resubscribing. -/
theorem repeated_enable_one_handler (s : RTEState) (v : Nat) (vs : List Nat)
    (ev : String) (hem : truthy (jsGetD s.config "em") = true)
    (hev : ev ∈ rteEvents) :
    countSubs ev (vs.foldl (fun st u => enable u st) (enable v s)) = 1 := by
  induction vs generalizing s v with
  | nil => exact countSubs_enable s v ev hem hev
  | cons u vs ih =>
    show countSubs ev (vs.foldl _ (enable u (enable v s))) = 1
    exact ih (enable v s) u (by rw [enable_config]; exact hem)

/-- Witness for C9: three successive `enable` calls at a concrete state. -/
theorem repeated_enable_one_handler_witness :
    countSubs "change:canvasOffset"
      ([6, 7].foldl (fun st u => enable u st) (enable 5 sampleState)) = 1 :=
  repeated_enable_one_handler sampleState 5 [6, 7] "change:canvasOffset"
    (by decide) (by simp [rteEvents])

/-- C10: after `init` the toolbar element's identity is fixed:
`getToolbarEl` returns the current toolbar, and no sequence of
`add`/`enable`/`disable`/`udpatePosition`/`postRender` calls ever replaces
the element created by `init` (its identity and class are preserved; the
calls only mutate its styles and parent). -/
theorem toolbar_identity_stable (opts defaults : JsObj) (heap0 : List JsObj)
    (cfgActions : List Nat) (tbId : Nat) (t : List Op) :
    getToolbarEl (applyTrace t (init opts defaults heap0 cfgActions tbId))
      = (applyTrace t (init opts defaults heap0 cfgActions tbId)).toolbar ∧
    (applyTrace t (init opts defaults heap0 cfgActions tbId)).toolbar.id
      = tbId ∧
    (applyTrace t (init opts defaults heap0 cfgActions tbId)).toolbar.className
      = (init opts defaults heap0 cfgActions tbId).toolbar.className := by
  refine ⟨rfl, ?_, applyTrace_toolbar_className t _⟩
  rw [applyTrace_toolbar_id]
  rfl

/-- C6 counterexample: `init` does not leave every property supplied in
`opts` unchanged.  With `opts = {pStylePrefix: 'p', stylePrefix: 's'}` and
no defaults, the supplied `stylePrefix` is rewritten to `'ps'`. -/
theorem init_changes_supplied_property :
    hasKey [("pStylePrefix", JsVal.vStr "p"), ("stylePrefix", JsVal.vStr "s")]
      "stylePrefix" = true ∧
    jsGetD (initConfig
        [("pStylePrefix", JsVal.vStr "p"), ("stylePrefix", JsVal.vStr "s")] [])
      "stylePrefix" = JsVal.vStr "ps" ∧
    jsGetD (initConfig
        [("pStylePrefix", JsVal.vStr "p"), ("stylePrefix", JsVal.vStr "s")] [])
      "stylePrefix"
      ≠ jsGetD [("pStylePrefix", JsVal.vStr "p"),
          ("stylePrefix", JsVal.vStr "s")] "stylePrefix" := by
  refine ⟨rfl, rfl, ?_⟩
  decide

/-- C6 (amended): `init(opts)` leaves every property supplied in `opts`
other than `stylePrefix` unchanged, copies the defaults for absent names
other than `stylePrefix`, and the effective `stylePrefix` is the
supplied-or-default one, prefixed with `pStylePrefix` exactly when the
merged `pStylePrefix` is truthy. -/
theorem init_config_amended (opts defaults : JsObj) :
    (∀ k, k ≠ "stylePrefix" → hasKey opts k = true →
      jsGetD (initConfig opts defaults) k = jsGetD opts k) ∧
    (∀ k, k ≠ "stylePrefix" → hasKey opts k = false →
      hasKey defaults k = true →
      jsGetD (initConfig opts defaults) k = jsGetD defaults k) ∧
    (truthy (jsGetD (mergeDefaults opts defaults) "pStylePrefix") = false →
      jsGetD (initConfig opts defaults) "stylePrefix"
        = jsGetD (mergeDefaults opts defaults) "stylePrefix") ∧
    (truthy (jsGetD (mergeDefaults opts defaults) "pStylePrefix") = true →
      jsGetD (initConfig opts defaults) "stylePrefix"
        = jsAdd (jsGetD (mergeDefaults opts defaults) "pStylePrefix")
            (jsGetD (mergeDefaults opts defaults) "stylePrefix")) := by
  have hunf : initConfig opts defaults
      = if truthy (jsGetD (mergeDefaults opts defaults) "pStylePrefix")
        then jsSet (mergeDefaults opts defaults) "stylePrefix"
          (jsAdd (jsGetD (mergeDefaults opts defaults) "pStylePrefix")
            (jsGetD (mergeDefaults opts defaults) "stylePrefix"))
        else mergeDefaults opts defaults := rfl
  refine ⟨?_, ?_, ?_, ?_⟩
  · intro k hk hsup
    rw [hunf]
    split
    · rw [jsGetD_set_ne _ _ _ _ hk, mergeDefaults_of_hasKey _ _ _ hsup]
    · rw [mergeDefaults_of_hasKey _ _ _ hsup]
  · intro k hk habs hdef
    rw [hunf]
    split
    · rw [jsGetD_set_ne _ _ _ _ hk, mergeDefaults_of_absent _ _ _ habs hdef]
    · rw [mergeDefaults_of_absent _ _ _ habs hdef]
  · intro hfalse
    rw [hunf, if_neg (by simp [hfalse])]
  · intro htrue
    rw [hunf, if_pos htrue, jsGetD_set_self]

/-- Witness for C6 (amended) at concrete options and defaults. -/
theorem init_config_amended_witness :
    jsGetD (initConfig [("pStylePrefix", JsVal.vStr "p")]
        [("stylePrefix", JsVal.vStr "rte-")]) "pStylePrefix"
      = jsGetD [("pStylePrefix", JsVal.vStr "p")] "pStylePrefix" ∧
    jsGetD (initConfig [("pStylePrefix", JsVal.vStr "p")]
        [("stylePrefix", JsVal.vStr "rte-")]) "stylePrefix"
      = jsAdd (jsGetD (mergeDefaults [("pStylePrefix", JsVal.vStr "p")]
            [("stylePrefix", JsVal.vStr "rte-")]) "pStylePrefix")
          (jsGetD (mergeDefaults [("pStylePrefix", JsVal.vStr "p")]
            [("stylePrefix", JsVal.vStr "rte-")]) "stylePrefix") :=
  ⟨(init_config_amended [("pStylePrefix", JsVal.vStr "p")]
      [("stylePrefix", JsVal.vStr "rte-")]).1 "pStylePrefix"
      (by decide) (by decide),
   (init_config_amended [("pStylePrefix", JsVal.vStr "p")]
      [("stylePrefix", JsVal.vStr "rte-")]).2.2.2 (by decide)⟩

end GrapesRTE
